import Mathlib

/-!
Shallow embedding of the PAXOS-Banking node (Go sources: the consensus server,
its balance/admission functions, and the shared configuration constants).
Go `int` is modelled as `Int`; slices/lists as `List`; network and Redis
side effects are outside the state model.
-/

namespace PaxosBanking

/-- Constant from src/common/config.go: `FaultsAllowed int = 1`. -/
def FaultsAllowed : Int := 1

/-- Constant from src/common/config.go: `LEADER string = "leader"`. -/
def LEADER : String := "leader"

/-- Constant from src/common/config.go: `FOLLOWER string = "follower"`. -/
def FOLLOWER : String := "follower"

/-- Constant from src/common/config.go: `ServerPortMap = map[int]int{1: 8001, 2: 8002, 3: 8003}`.
A missing key yields the Go zero value 0. -/
def ServerPortMap (id : Int) : Int :=
  if id = 1 then 8001 else if id = 2 then 8002 else if id = 3 then 8003 else 0

/-- The common.TransferTxn wire type: `(sender, receiver, amount)`, all Go ints,
as used by field access `txn.Sender`, `txn.Recvr`, `txn.Amount` in the server code. -/
structure TransferTxn where
  Sender : Int
  Recvr : Int
  Amount : Int
deriving DecidableEq

/-- A committed block: a sequence number and its batch of transactions, as used by
`block.Transactions` in `getBalance`. -/
structure Block where
  SeqNum : Int
  Transactions : List TransferTxn
deriving DecidableEq

/-- The Server struct of src/server/consensus/server.go, restricted to its
data fields; the `ServerConn` map and `RedisConn` handle are connection
objects with no bearing on the protocol state. -/
structure Server where
  Id : Int
  Blockchain : List Block
  Port : Int
  SeqNum : Int
  Status : String
  AlreadyPromised : Bool
  Peers : List Int
  AssociatedClient : Int
  Log : List TransferTxn
deriving DecidableEq

/-- One transaction's effect on a running balance, exactly the loop body shared by
`getBalance` and `getLocalBalance`: add the amount when the receiver is the
associated client, then subtract it when the sender is. -/
def applyTxn (client : Int) (balance : Int) (txn : TransferTxn) : Int :=
  let b1 := if txn.Recvr = client then balance + txn.Amount else balance
  if txn.Sender = client then b1 - txn.Amount else b1

/-- `getBalance` from the server code: starts at 100 and folds every transaction of
every committed block; it never reads the local log. -/
def getBalance (server : Server) : Int :=
  server.Blockchain.foldl
    (fun balance block => block.Transactions.foldl (applyTxn server.AssociatedClient) balance)
    100

/-- `getLocalBalance` from the server code: `getBalance` followed by the same
per-transaction update over the local log. -/
def getLocalBalance (server : Server) : Int :=
  server.Log.foldl (applyTxn server.AssociatedClient) (getBalance server)

/-- `checkIfTxnPossible` from the server code. The returned Bool is the
"a PAXOS run is required" flag consumed by `processTxnRequest`:
`false` when `balance < 0` or `balance > txn.Amount`, else `true`. -/
def checkIfTxnPossible (server : Server) (txn : TransferTxn) : Bool :=
  let balance := getLocalBalance server
  if balance < 0 then false
  else if balance > txn.Amount then false
  else true

/-- `execLocalTxn` from the server code: append the transaction to the local log.
The Redis write-through is a durability side channel outside the state model. -/
def execLocalTxn (server : Server) (txn : TransferTxn) : Server :=
  { server with Log := server.Log ++ [txn] }

/-- Which path `processTxnRequest` took for a transfer. -/
inductive TxnPath where
  | localCommit
  | consensusRound
deriving DecidableEq

/-- `processTxnRequest` from src/server/consensus/server.go: compute
`runPaxos := checkIfTxnPossible`; when it is false, commit locally via
`execLocalTxn`; otherwise invoke the consensus round (`execPaxosRun`, whose body
is not part of this snapshot — the pair's second component records the path taken,
and the state is returned unchanged on the consensus path). -/
def processTxnRequest (server : Server) (txn : TransferTxn) : Server × TxnPath :=
  if checkIfTxnPossible server txn then
    (server, TxnPath.consensusRound)
  else
    (execLocalTxn server txn, TxnPath.localCommit)

/-- The peer book-keeping of `InitServer`: starting from the empty peer list,
node 1 appends 2 and 3, node 2 appends 1 and 3, node 3 appends 1 and 2;
any other id keeps the empty list. -/
def initPeers (id : Int) : List Int :=
  if id = 1 then [2, 3]
  else if id = 2 then [1, 3]
  else if id = 3 then [1, 2]
  else []

/-- `InitServer` from src/server/consensus/server.go: fresh node with empty
blockchain and local log, seq num 1, follower status, no promise made,
associated client equal to its own id, and the two other node ids as peers. -/
def InitServer (id : Int) : Server :=
  { Id := id
    Blockchain := []
    Port := ServerPortMap id
    SeqNum := 1
    Status := FOLLOWER
    AlreadyPromised := false
    Peers := initPeers id
    AssociatedClient := id
    Log := [] }

/-- A ballot `(sequenceNumber, proposerId)`, ordered lexicographically. -/
structure Ballot where
  SeqNum : Int
  ProposerId : Int
deriving DecidableEq

/-- `processElectionRequest` as it stands in src/server/consensus/server.go: an
empty function body, so the node state is returned unchanged — no promise flag
set, no ballot recorded — and nothing is sent back on the connection. -/
def processElectionRequest (server : Server) (_electionRequest : Ballot) : Server :=
  server

/-- Number of nodes in the fixed deployment (ids 1..3 of `ServerPortMap`). -/
def NumNodes : Int := 3

/-- Modelled from the spec: quorum size of a consensus round, derived from the
fault-tolerance parameter, `FaultsAllowed = 1` out of 3 nodes giving quorum 2. -/
def Quorum : Int := NumNodes - FaultsAllowed

/-- Modelled from the spec: the consensus round driver (`execPaxosRun`) is absent
from this snapshot; per the design the proposer proceeds from the Prepare phase to
the Accept phase exactly when the Promise responses it collected (counting its own
self-promise) reach the quorum size. -/
def roundProceedsToAccept (promisesReceived : Int) : Bool :=
  decide (Quorum ≤ promisesReceived)

/-- A decoded inbound message, one constructor per dispatch tag of
`handleIncomingConnections`. -/
inductive Message where
  | transaction (txn : TransferTxn)
  | prepare (b : Ballot)
  | showBalance
  | showLog
  | showBlockchain
deriving DecidableEq

/-- An observable log emission of the handler loop. The loop body logs exactly once
per successfully decoded request ("Request received from a client"); the
decode-error branch of the source contains no log call. -/
inductive LogEvent where
  | requestReceived (m : Message)
deriving DecidableEq

/-- The switch statement of `handleIncomingConnections`: route a decoded message to
its handler. Balance queries and the two diagnostic dumps only write to the
connection or to stdout and leave the node state unchanged. -/
def dispatchMessage (server : Server) (m : Message) : Server :=
  match m with
  | Message.transaction txn => (processTxnRequest server txn).1
  | Message.prepare b => processElectionRequest server b
  | Message.showBalance => server
  | Message.showLog => server
  | Message.showBlockchain => server

/-- `handleIncomingConnections` over a finite inbound stream: each element is the
decode result of one wire item (`none` models malformed bytes that fail to decode
with a JSON syntax error). On success the loop logs the request and dispatches
it. On a decode error the source does `continue` without logging; but the
json.Decoder stores a syntax error and returns the stored error from every
subsequent Decode call, so from the first malformed item on the loop spins on
that error forever: nothing after it is ever decoded or dispatched, and the
connection is never torn down (the loop never exits). Returns the node state and
the log events emitted before the loop stopped making progress. -/
def handleIncomingConnections (server : Server) :
    List (Option Message) → Server × List LogEvent
  | [] => (server, [])
  | none :: _ => (server, [])
  | some m :: rest =>
      let out := handleIncomingConnections (dispatchMessage server m) rest
      (out.1, LogEvent.requestReceived m :: out.2)

/-- Two's-complement wrap-around of a signed 64-bit machine integer: the value of
a Go `int` (int64) after overflow. The constants are 2 to the 63rd and 2 to the
64th power. -/
def wrap64 (x : Int) : Int :=
  (x + 9223372036854775808) % 18446744073709551616 - 9223372036854775808

/-- The balance loop body with Go's wrapping int64 arithmetic: every `+=` and
`-=` on the `int` balance wraps on overflow. -/
def applyTxnWrap (client : Int) (balance : Int) (txn : TransferTxn) : Int :=
  let b1 := if txn.Recvr = client then wrap64 (balance + txn.Amount) else balance
  if txn.Sender = client then wrap64 (b1 - txn.Amount) else b1

/-- `getBalance` with wrapping int64 arithmetic. -/
def getBalanceWrap (server : Server) : Int :=
  server.Blockchain.foldl
    (fun balance block => block.Transactions.foldl (applyTxnWrap server.AssociatedClient) balance)
    100

/-- `getLocalBalance` with wrapping int64 arithmetic. -/
def getLocalBalanceWrap (server : Server) : Int :=
  server.Log.foldl (applyTxnWrap server.AssociatedClient) (getBalanceWrap server)

/-- `checkIfTxnPossible` computed over the wrapping int64 balance. -/
def checkIfTxnPossibleWrap (server : Server) (txn : TransferTxn) : Bool :=
  let balance := getLocalBalanceWrap server
  if balance < 0 then false
  else if balance > txn.Amount then false
  else true

/-- `processTxnRequest` with the admission decision computed over the wrapping
int64 balance. -/
def processTxnRequestWrap (server : Server) (txn : TransferTxn) : Server × TxnPath :=
  if checkIfTxnPossibleWrap server txn then
    (server, TxnPath.consensusRound)
  else
    (execLocalTxn server txn, TxnPath.localCommit)

/-- A run of `processTxnRequestWrap` over a sequence of transfer requests in
which every request takes the local-commit path. -/
inductive LocalRunWrap : Server → List TransferTxn → Server → Prop where
  | nil : ∀ s, LocalRunWrap s [] s
  | cons : ∀ s t ts s₂,
      (processTxnRequestWrap s t).2 = TxnPath.localCommit →
      LocalRunWrap (processTxnRequestWrap s t).1 ts s₂ →
      LocalRunWrap s (t :: ts) s₂

/-- Executable check that every transaction of a sequence is admitted on the
local path when processed in order from the given state. -/
def allLocalWrap (server : Server) : List TransferTxn → Bool
  | [] => true
  | t :: rest => !(checkIfTxnPossibleWrap server t) && allLocalWrap (execLocalTxn server t) rest

/-- A sequence of credits to client 1, each of amount one less than the running
balance (so each is admitted locally) and hence doubling the balance: after n
steps from balance b the balance is about b times 2 to the n. -/
def doublingCredits : Nat → Int → List TransferTxn
  | 0, _ => []
  | n + 1, b => ⟨2, 1, b - 1⟩ :: doublingCredits n (2 * b - 1)

/-- 57 doubling credits from the starting balance 100: enough for the int64
balance to overflow 2 to the 63rd and wrap negative. -/
def overflowTxns : List TransferTxn := doublingCredits 57 100

/-- Spec-side received sum: Σ amount over transactions whose receiver is the client. -/
def specReceivedSum (client : Int) (txns : List TransferTxn) : Int :=
  (txns.map (fun t => if t.Recvr = client then t.Amount else 0)).sum

/-- Spec-side sent sum: Σ amount over transactions whose sender is the client. -/
def specSentSum (client : Int) (txns : List TransferTxn) : Int :=
  (txns.map (fun t => if t.Sender = client then t.Amount else 0)).sum

/-- All transactions of a blockchain, in block order. -/
def blockTxns (bc : List Block) : List TransferTxn :=
  bc.foldr (fun blk acc => blk.Transactions ++ acc) []

/-! ## Helper lemmas -/

theorem applyTxn_eq (c b : Int) (t : TransferTxn) :
    applyTxn c b t = b + (if t.Recvr = c then t.Amount else 0)
      - (if t.Sender = c then t.Amount else 0) := by
  simp only [applyTxn]
  split_ifs <;> ring

theorem specReceivedSum_append (c : Int) (xs ys : List TransferTxn) :
    specReceivedSum c (xs ++ ys) = specReceivedSum c xs + specReceivedSum c ys := by
  simp [specReceivedSum]

theorem specSentSum_append (c : Int) (xs ys : List TransferTxn) :
    specSentSum c (xs ++ ys) = specSentSum c xs + specSentSum c ys := by
  simp [specSentSum]

theorem foldl_applyTxn (c : Int) (ts : List TransferTxn) : ∀ b : Int,
    ts.foldl (applyTxn c) b = b + specReceivedSum c ts - specSentSum c ts := by
  induction ts with
  | nil => intro b; simp [specReceivedSum, specSentSum]
  | cons t ts ih =>
      intro b
      simp only [List.foldl_cons, ih, applyTxn_eq, specReceivedSum, specSentSum,
        List.map_cons, List.sum_cons]
      ring

theorem foldl_blocks (c : Int) (bc : List Block) : ∀ b : Int,
    bc.foldl (fun balance block => block.Transactions.foldl (applyTxn c) balance) b
      = b + specReceivedSum c (blockTxns bc) - specSentSum c (blockTxns bc) := by
  induction bc with
  | nil => intro b; simp [blockTxns, specReceivedSum, specSentSum]
  | cons blk bc ih =>
      intro b
      have hbt : blockTxns (blk :: bc) = blk.Transactions ++ blockTxns bc := rfl
      rw [List.foldl_cons, ih, foldl_applyTxn, hbt,
        specReceivedSum_append, specSentSum_append]
      ring

theorem getBalance_eq (s : Server) :
    getBalance s = 100 + specReceivedSum s.AssociatedClient (blockTxns s.Blockchain)
      - specSentSum s.AssociatedClient (blockTxns s.Blockchain) :=
  foldl_blocks s.AssociatedClient s.Blockchain 100

theorem getLocalBalance_eq (s : Server) :
    getLocalBalance s = getBalance s + specReceivedSum s.AssociatedClient s.Log
      - specSentSum s.AssociatedClient s.Log :=
  foldl_applyTxn s.AssociatedClient s.Log (getBalance s)

theorem checkIfTxnPossible_iff (s : Server) (t : TransferTxn) :
    checkIfTxnPossible s t = true ↔
      0 ≤ getLocalBalance s ∧ getLocalBalance s ≤ t.Amount := by
  simp only [checkIfTxnPossible]
  split_ifs with h1 h2 <;> simp <;> omega

theorem wrap64_eq_self (x : Int) (h1 : -9223372036854775808 ≤ x)
    (h2 : x < 9223372036854775808) : wrap64 x = x := by
  unfold wrap64
  omega

theorem getLocalBalanceWrap_execLocalTxn (s : Server) (t : TransferTxn) :
    getLocalBalanceWrap (execLocalTxn s t)
      = applyTxnWrap s.AssociatedClient (getLocalBalanceWrap s) t := by
  simp [getLocalBalanceWrap, execLocalTxn, getBalanceWrap, List.foldl_append]

theorem getLocalBalanceWrap_InitServer (id : Int) :
    getLocalBalanceWrap (InitServer id) = 100 := rfl

theorem checkIfTxnPossibleWrap_iff (s : Server) (t : TransferTxn) :
    checkIfTxnPossibleWrap s t = true ↔
      0 ≤ getLocalBalanceWrap s ∧ getLocalBalanceWrap s ≤ t.Amount := by
  simp only [checkIfTxnPossibleWrap]
  split_ifs with h1 h2 <;> simp <;> omega

theorem applyTxnWrap_pos (c balance : Int) (t : TransferTxn)
    (hbal : 0 < balance) (hamt : 0 < t.Amount) (hgt : t.Amount < balance)
    (hsafe : balance + t.Amount < 9223372036854775808) :
    0 < applyTxnWrap c balance t := by
  simp only [applyTxnWrap]
  split_ifs with h1 h2 h3
  · rw [wrap64_eq_self (balance + t.Amount) (by omega) (by omega),
      wrap64_eq_self (balance + t.Amount - t.Amount) (by omega) (by omega)]
    omega
  · rw [wrap64_eq_self (balance - t.Amount) (by omega) (by omega)]
    omega
  · rw [wrap64_eq_self (balance + t.Amount) (by omega) (by omega)]
    omega
  · omega

theorem allLocalWrap_run (ts : List TransferTxn) :
    ∀ s : Server, allLocalWrap s ts = true →
      LocalRunWrap s ts (ts.foldl execLocalTxn s) := by
  induction ts with
  | nil =>
      intro s _
      exact LocalRunWrap.nil s
  | cons t rest ih =>
      intro s h
      simp only [allLocalWrap, Bool.and_eq_true, Bool.not_eq_true'] at h
      have hstate : (processTxnRequestWrap s t).1 = execLocalTxn s t := by
        simp [processTxnRequestWrap, h.1]
      refine LocalRunWrap.cons s t rest _ ?_ ?_
      · simp [processTxnRequestWrap, h.1]
      · rw [hstate]
        exact ih (execLocalTxn s t) h.2

theorem localRunWrap_preserves_pos :
    ∀ {s : Server} {ts : List TransferTxn} {s₂ : Server},
      LocalRunWrap s ts s₂ → (∀ t ∈ ts, 0 < t.Amount) →
      (∀ pre t post, ts = pre ++ t :: post →
        getLocalBalanceWrap (pre.foldl execLocalTxn s) + t.Amount
          < 9223372036854775808) →
      0 < getLocalBalanceWrap s → 0 < getLocalBalanceWrap s₂ := by
  intro s ts s₂ hrun
  induction hrun with
  | nil s =>
      intro _ _ hbal
      exact hbal
  | cons s t ts s₂ hpath _ ih =>
      intro hpos hsafe hbal
      have hc : checkIfTxnPossibleWrap s t = false := by
        cases hcheck : checkIfTxnPossibleWrap s t with
        | false => rfl
        | true => simp [processTxnRequestWrap, hcheck] at hpath
      have hnot : ¬ (0 ≤ getLocalBalanceWrap s ∧ getLocalBalanceWrap s ≤ t.Amount) := by
        intro hx
        rw [(checkIfTxnPossibleWrap_iff s t).2 hx] at hc
        cases hc
      have hgt : t.Amount < getLocalBalanceWrap s := by omega
      have hamt : 0 < t.Amount := hpos t (List.mem_cons_self t ts)
      have hsafe0 : getLocalBalanceWrap s + t.Amount < 9223372036854775808 :=
        hsafe [] t ts rfl
      have hstate : (processTxnRequestWrap s t).1 = execLocalTxn s t := by
        simp [processTxnRequestWrap, hc]
      have hb2 : 0 < getLocalBalanceWrap (execLocalTxn s t) := by
        rw [getLocalBalanceWrap_execLocalTxn]
        exact applyTxnWrap_pos s.AssociatedClient (getLocalBalanceWrap s) t hbal hamt hgt hsafe0
      have hb2' : 0 < getLocalBalanceWrap (processTxnRequestWrap s t).1 := by
        rw [hstate]; exact hb2
      have hsafe' : ∀ pre t' post, ts = pre ++ t' :: post →
          getLocalBalanceWrap (pre.foldl execLocalTxn (processTxnRequestWrap s t).1) + t'.Amount
            < 9223372036854775808 := by
        intro pre t' post hdecomp
        rw [hstate]
        exact hsafe (t :: pre) t' post (by rw [hdecomp]; rfl)
      exact ih (fun u hu => hpos u (List.mem_cons_of_mem t hu)) hsafe' hb2'

/-! ## Claim theorems -/

/-- C1: for every incoming transfer, the admission decision is computed from
`balance = getLocalBalance`: when `balance < 0` or `balance > txn.Amount`,
`processTxnRequest` commits locally — no consensus round, the transaction is
appended to the local log by `execLocalTxn`; otherwise (`0 ≤ balance ≤ txn.Amount`)
a consensus round is required, exactly as the literal rule states. -/
theorem C1_admission_rule (s : Server) (t : TransferTxn) :
    (getLocalBalance s < 0 ∨ t.Amount < getLocalBalance s →
      processTxnRequest s t = (execLocalTxn s t, TxnPath.localCommit)) ∧
    (0 ≤ getLocalBalance s → getLocalBalance s ≤ t.Amount →
      processTxnRequest s t = (s, TxnPath.consensusRound)) := by
  constructor
  · intro h
    have hc : checkIfTxnPossible s t = false := by
      cases hcheck : checkIfTxnPossible s t with
      | false => rfl
      | true =>
          rcases (checkIfTxnPossible_iff s t).1 hcheck with ⟨h1, h2⟩
          omega
    simp [processTxnRequest, hc]
  · intro h1 h2
    have hc : checkIfTxnPossible s t = true := (checkIfTxnPossible_iff s t).2 ⟨h1, h2⟩
    simp [processTxnRequest, hc]

/-- C1 witness: at balance 100, an amount-10 transfer commits locally and an
amount-100 transfer goes to consensus. -/
theorem C1_admission_rule_witness :
    processTxnRequest (InitServer 1) ⟨1, 2, 10⟩
        = (execLocalTxn (InitServer 1) ⟨1, 2, 10⟩, TxnPath.localCommit) ∧
    processTxnRequest (InitServer 1) ⟨1, 2, 100⟩ = (InitServer 1, TxnPath.consensusRound) :=
  ⟨(C1_admission_rule (InitServer 1) ⟨1, 2, 10⟩).1 (Or.inr (by decide)),
   (C1_admission_rule (InitServer 1) ⟨1, 2, 100⟩).2 (by decide) (by decide)⟩

/-- C2: `getLocalBalance` equals 100 plus the received sum minus the sent sum over
all transactions (committed blocks first, then the local log) touching the
associated client; and `getBalance` is a pure function of the blockchain and the
associated client alone, ignoring the local log. -/
theorem C2_balance_correctness (s : Server) :
    (getLocalBalance s =
      100 + specReceivedSum s.AssociatedClient (blockTxns s.Blockchain ++ s.Log)
          - specSentSum s.AssociatedClient (blockTxns s.Blockchain ++ s.Log)) ∧
    (∀ s₂ : Server, s.Blockchain = s₂.Blockchain →
      s.AssociatedClient = s₂.AssociatedClient → getBalance s = getBalance s₂) := by
  constructor
  · rw [getLocalBalance_eq, getBalance_eq, specReceivedSum_append, specSentSum_append]
    ring
  · intro s₂ h1 h2
    rw [getBalance_eq, getBalance_eq, h1, h2]

/-- C2 witness: the committed-only balance of a fresh node is unchanged by adding
a local-log entry. -/
theorem C2_balance_correctness_witness :
    getBalance (InitServer 1) = getBalance { InitServer 1 with Log := [⟨1, 2, 10⟩] } :=
  (C2_balance_correctness (InitServer 1)).2 { InitServer 1 with Log := [⟨1, 2, 10⟩] } rfl rfl

/-- C3: the quorum size is 2, derived from FaultsAllowed = 1 of 3 nodes, and a
consensus round that has collected fewer than 2 Promise responses (counting the
proposer itself) never proceeds to the Accept phase. -/
theorem C3_quorum_requirement (p : Int) :
    Quorum = 2 ∧ Quorum = NumNodes - FaultsAllowed ∧ FaultsAllowed = 1 ∧
    (p < 2 → roundProceedsToAccept p = false) := by
  refine ⟨rfl, rfl, rfl, ?_⟩
  intro h
  simp only [roundProceedsToAccept, Quorum, NumNodes, FaultsAllowed, decide_eq_false_iff_not]
  omega

/-- C3 witness: with a single promise (the proposer's own) the round does not
proceed to Accept. -/
theorem C3_quorum_requirement_witness : roundProceedsToAccept 1 = false :=
  (C3_quorum_requirement 1).2.2.2 (by decide)

/-- C4 (code bug): evaluating the code at the failing input — node 1 in its
initial state (no promise made) receiving a Prepare message carrying ballot
(5, 2), strictly greater than anything it has promised — the empty-bodied
`processElectionRequest` returns the state unchanged: no promise flag is set, no
ballot is recorded, no Promise reply is produced, contradicting the intended
Promise behavior the claim states. -/
theorem C4_prepare_handler_stub :
    processElectionRequest (InitServer 1) ⟨5, 2⟩ = InitServer 1 ∧
    (processElectionRequest (InitServer 1) ⟨5, 2⟩).AlreadyPromised = false :=
  ⟨rfl, rfl⟩

/-- C5: a freshly initialized node (empty blockchain and local log, balance 100)
processing a transfer of amount 10 from its associated client takes the local
path — no consensus round — and afterwards the local balance is 90. -/
theorem C5_local_commit_scenario :
    checkIfTxnPossible (InitServer 1) ⟨1, 2, 10⟩ = false ∧
    processTxnRequest (InitServer 1) ⟨1, 2, 10⟩
        = (execLocalTxn (InitServer 1) ⟨1, 2, 10⟩, TxnPath.localCommit) ∧
    getLocalBalance (processTxnRequest (InitServer 1) ⟨1, 2, 10⟩).1 = 90 :=
  ⟨rfl, rfl, rfl⟩

/-- C6: when the local balance equals the (positive) requested transfer amount,
`processTxnRequest` takes the consensus path, not the local-commit path. -/
theorem C6_equal_balance_forces_consensus (s : Server) (t : TransferTxn)
    (hpos : 0 < t.Amount) (hbal : getLocalBalance s = t.Amount) :
    processTxnRequest s t = (s, TxnPath.consensusRound) := by
  have hc : checkIfTxnPossible s t = true :=
    (checkIfTxnPossible_iff s t).2 ⟨by omega, by omega⟩
  simp [processTxnRequest, hc]

/-- C6 witness: after local transfers drop the balance to 5, a transfer of
amount 5 goes to consensus. -/
theorem C6_equal_balance_forces_consensus_witness :
    processTxnRequest { InitServer 1 with Log := [⟨1, 2, 45⟩, ⟨1, 2, 50⟩] } ⟨1, 2, 5⟩
      = ({ InitServer 1 with Log := [⟨1, 2, 45⟩, ⟨1, 2, 50⟩] }, TxnPath.consensusRound) :=
  C6_equal_balance_forces_consensus { InitServer 1 with Log := [⟨1, 2, 45⟩, ⟨1, 2, 50⟩] }
    ⟨1, 2, 5⟩ (by decide) (by decide)

/-- C7: for every node id in 1..3, the initialized node starts as FOLLOWER with
no promise made, an empty blockchain, an empty local log, seq num 1, and its
peer list holding exactly the other two node ids. -/
theorem C7_init_server_state (id j : Int) (h : id = 1 ∨ id = 2 ∨ id = 3) :
    (InitServer id).Status = FOLLOWER ∧
    (InitServer id).AlreadyPromised = false ∧
    (InitServer id).Blockchain = [] ∧
    (InitServer id).Log = [] ∧
    (InitServer id).SeqNum = 1 ∧
    (j ∈ (InitServer id).Peers ↔ ((j = 1 ∨ j = 2 ∨ j = 3) ∧ j ≠ id)) := by
  refine ⟨rfl, rfl, rfl, rfl, rfl, ?_⟩
  rcases h with h | h | h <;> subst h <;> simp [InitServer, initPeers] <;> omega

/-- C7 witness: node 2 starts as FOLLOWER, unpromised, with empty blockchain and
log, and node 3 is among its peers. -/
theorem C7_init_server_state_witness :
    (InitServer 2).Status = FOLLOWER ∧
    (InitServer 2).AlreadyPromised = false ∧
    (InitServer 2).Blockchain = [] ∧
    (InitServer 2).Log = [] ∧
    (InitServer 2).SeqNum = 1 ∧
    ((3 : Int) ∈ (InitServer 2).Peers ↔ (((3 : Int) = 1 ∨ (3 : Int) = 2 ∨ (3 : Int) = 3) ∧ (3 : Int) ≠ 2)) :=
  C7_init_server_state 2 3 (Or.inr (Or.inl rfl))

/-- C8 counterexample: a malformed inbound message followed by a well-formed
transfer message leaves the node state untouched and emits no log event at all:
the decode failure is not logged (the error branch is a bare continue with no log
call), and the handler does not go on to decode and dispatch the subsequent
message — the decoder's stored syntax error wedges the loop — refuting both the
"failure is logged" and the "continues to dispatch subsequent messages" parts of
the claim. -/
theorem C8_decode_failure_counterexample :
    handleIncomingConnections (InitServer 1)
        [Option.none, some (Message.transaction ⟨1, 2, 10⟩)]
      = (InitServer 1, ([] : List LogEvent)) := rfl

/-- C8 amended: when an inbound message fails to decode, the failure is not
logged and the connection is not torn down (the receive loop keeps running), but
the handler does not recover either: the decoder returns its stored error on
every subsequent read, so no message after the malformed one is ever decoded or
dispatched — the node state and the emitted log events are exactly those from
before the malformed message. -/
theorem C8_decode_failure_sticky (s : Server) (rest : List (Option Message)) :
    handleIncomingConnections s (Option.none :: rest) = (s, ([] : List LogEvent)) := rfl

/-- C9: `execLocalTxn` appends exactly the given transaction to the end of the
local log and leaves every other field of the node state unchanged. -/
theorem C9_execLocalTxn_frame (s : Server) (t : TransferTxn) :
    (execLocalTxn s t).Log = s.Log ++ [t] ∧
    (execLocalTxn s t).Blockchain = s.Blockchain ∧
    (execLocalTxn s t).SeqNum = s.SeqNum ∧
    (execLocalTxn s t).Status = s.Status ∧
    (execLocalTxn s t).AlreadyPromised = s.AlreadyPromised ∧
    (execLocalTxn s t).Peers = s.Peers ∧
    (execLocalTxn s t).AssociatedClient = s.AssociatedClient ∧
    (execLocalTxn s t).Id = s.Id ∧
    (execLocalTxn s t).Port = s.Port :=
  ⟨rfl, rfl, rfl, rfl, rfl, rfl, rfl, rfl, rfl⟩

set_option maxRecDepth 100000 in
/-- C10 counterexample: with the wrapping int64 arithmetic of Go `int`, 57
doubling credits to the associated client — every one with a positive amount and
every one admitted on the local-commit path from the initial state — overflow the
balance past 2 to the 63rd so that getLocalBalanceWrap of the final state is
negative, falsifying the positivity invariant; a further transfer of amount 1 is
then admitted locally through the now-reachable negative-balance branch (the
balance is below 0, not above the amount). -/
theorem C10_overflow_counterexample :
    LocalRunWrap (InitServer 1) overflowTxns (overflowTxns.foldl execLocalTxn (InitServer 1)) ∧
    (∀ t ∈ overflowTxns, 0 < t.Amount) ∧
    getLocalBalanceWrap (overflowTxns.foldl execLocalTxn (InitServer 1)) < 0 ∧
    checkIfTxnPossibleWrap (overflowTxns.foldl execLocalTxn (InitServer 1)) ⟨1, 2, 1⟩ = false :=
  ⟨allLocalWrap_run overflowTxns (InitServer 1) (by decide), by decide, by decide, by decide⟩

/-- C10 (amended): starting from the initial node state, after any sequence of
transfer requests that each take the local-commit path, with positive amounts
(per the data model) and with every balance update staying inside the signed
64-bit range (balance plus credited amount below 2 to the 63rd at every step —
no int64 overflow), the local balance remains strictly positive; consequently
when a further transfer is admitted locally it is because the balance exceeds
its amount — the negative-balance branch stays unreachable. Without the
no-overflow condition the invariant fails (see the overflow counterexample). -/
theorem C10_no_overflow_balance_positive (id : Int) (ts : List TransferTxn)
    (s₂ : Server) (u : TransferTxn)
    (hrun : LocalRunWrap (InitServer id) ts s₂)
    (hpos : ∀ t ∈ ts, 0 < t.Amount)
    (hsafe : ∀ pre t post, ts = pre ++ t :: post →
      getLocalBalanceWrap (pre.foldl execLocalTxn (InitServer id)) + t.Amount
        < 9223372036854775808) :
    0 < getLocalBalanceWrap s₂ ∧
    (checkIfTxnPossibleWrap s₂ u = false → u.Amount < getLocalBalanceWrap s₂) := by
  have h100 : 0 < getLocalBalanceWrap (InitServer id) := by
    rw [getLocalBalanceWrap_InitServer]; norm_num
  have h0 : 0 < getLocalBalanceWrap s₂ := localRunWrap_preserves_pos hrun hpos hsafe h100
  refine ⟨h0, ?_⟩
  intro hcu
  have hnot : ¬ (0 ≤ getLocalBalanceWrap s₂ ∧ getLocalBalanceWrap s₂ ≤ u.Amount) := by
    intro hx
    rw [(checkIfTxnPossibleWrap_iff s₂ u).2 hx] at hcu
    cases hcu
  omega

/-- C10 witness: one local transfer of 10 from balance 100 stays far below the
int64 bound; the balance 90 is positive and a further transfer of 50 that is
admitted locally indeed has 50 < 90. -/
theorem C10_no_overflow_balance_positive_witness :
    0 < getLocalBalanceWrap (execLocalTxn (InitServer 1) ⟨1, 2, 10⟩) ∧
    (50 : Int) < getLocalBalanceWrap (execLocalTxn (InitServer 1) ⟨1, 2, 10⟩) :=
  ⟨(C10_no_overflow_balance_positive 1 [⟨1, 2, 10⟩]
      (execLocalTxn (InitServer 1) ⟨1, 2, 10⟩) ⟨1, 2, 50⟩
      (LocalRunWrap.cons _ _ _ _ (by decide) (LocalRunWrap.nil _)) (by decide)
      (by
        intro pre t post h
        rcases pre with _ | ⟨a, pre⟩
        · rw [List.nil_append] at h
          injection h with h1 h2
          subst h1
          subst h2
          decide
        · injection h with h1 h2
          simp at h2)).1,
   (C10_no_overflow_balance_positive 1 [⟨1, 2, 10⟩]
      (execLocalTxn (InitServer 1) ⟨1, 2, 10⟩) ⟨1, 2, 50⟩
      (LocalRunWrap.cons _ _ _ _ (by decide) (LocalRunWrap.nil _)) (by decide)
      (by
        intro pre t post h
        rcases pre with _ | ⟨a, pre⟩
        · rw [List.nil_append] at h
          injection h with h1 h2
          subst h1
          subst h2
          decide
        · injection h with h1 h2
          simp at h2)).2 (by decide)⟩

end PaxosBanking
